import Mathlib

/-!
Shallow embedding of the streaming aggregation engine of cecat/soundviz
(src/sv.py and src/sv_functions.py).

Modelling conventions:
* A pandas cell that may be NaN (an empty CSV field) is an `Option String`;
  `none` is NaN.  The `datetime` cell is kept as raw text.
* `pd.to_datetime` is abstracted by a parameter `p : String → Option Nat`
  mapping a text to the instant (in seconds) it denotes, `none` when parsing
  raises `ValueError`/`TypeError`.  `dt.floor` to the hour truncates the
  instant to a multiple of 3600.
* A `defaultdict(int)` counter keyed by `κ` is a total function `κ → Nat`:
  zero is "key absent".  Counters are only ever incremented by positive
  amounts, so dictionary deep equality is pointwise equality.
* On one point the reducer is not total: `process_chunk` (sv_functions.py
  line 243) and the identical inline code in sv.py main (line 108) run
  `valid_rows['class'].str.split('.', n=1, expand=True)` and assign the
  result to two columns.  When no valid row of the chunk has a '.' in its
  `class` cell, the expansion yields a single column (or, when every cell is
  NaN, a float column without a `.str` accessor) and the two-column
  assignment raises, aborting the run.  `chunkCrashes` captures exactly that
  condition and `process_chunk_run` wraps the pure reducer in it.
-/

/-- Split a character list at each comma, mirroring the comma-delimited row
format that `pd.read_csv` parses (§6 of the spec: fields never contain the
delimiter, so no quoting logic is needed). -/
def splitCommaAux : List Char → List Char → List String
  | [], acc => [String.mk acc.reverse]
  | c :: rest, acc =>
    if c = ',' then String.mk acc.reverse :: splitCommaAux rest []
    else splitCommaAux rest (c :: acc)

/-- Comma-split of one CSV line. -/
def splitComma (s : String) : List String := splitCommaAux s.data []

/-- Helper for `splitFirstDot`: scan for the first '.', returning the parts
before and after it, or `none` when there is no dot. -/
def splitDotAux : List Char → List Char → Option (String × String)
  | [], _ => none
  | c :: rest, acc =>
    if c = '.' then some (String.mk acc.reverse, String.mk rest)
    else splitDotAux rest (c :: acc)

/-- The split `value.str.split('.', n=1)` performs on one string cell:
at most one split, at the first '.'.  A string without a dot yields a
single-element list, i.e. no second part (`none`), exactly as pandas then
leaves the `class_name` column cell NaN. -/
def splitFirstDot (s : String) : String × Option String :=
  match splitDotAux s.data [] with
  | none => (s, none)
  | some (g, c) => (g, some c)

/-- One raw log row after `pd.read_csv(header=None, names=[...])`
(sv.py lines 73-87): eight positional cells.  `class_path` is the column
named `class` in the source (a Lean keyword).  The `datetime` cell is kept
as text; every other cell is `none` when the CSV field is empty (NaN). -/
structure RawRecord where
  datetime : String
  camera : Option String
  group : Option String
  group_score : Option String
  class_path : Option String
  class_score : Option String
  group_start : Option String
  group_end : Option String
deriving DecidableEq

/-- Cell `i` of a split row: missing or empty fields are NaN (`none`). -/
def csvField (ps : List String) (i : Nat) : Option String :=
  match ps.get? i with
  | none => none
  | some s => if s = "" then none else some s

/-- Parse one CSV line into the eight named columns, in the fixed order of
sv.py lines 76-85. -/
def parseLine (line : String) : RawRecord :=
  let ps := splitComma line
  { datetime := (ps.get? 0).getD ""
    camera := csvField ps 1
    group := csvField ps 2
    group_score := csvField ps 3
    class_path := csvField ps 4
    class_score := csvField ps 5
    group_start := csvField ps 6
    group_end := csvField ps 7 }

/-- sv.py lines 28-33 / sv_functions.py lines 160-166: a cell is a valid
datetime when `pd.to_datetime` does not raise, i.e. when the abstract parser
`p` succeeds. -/
def is_valid_datetime (p : String → Option Nat) (value : String) : Bool :=
  (p value).isSome

/-- Row validity: only the `datetime` cell is consulted
(`chunk[chunk['datetime'].apply(is_valid_datetime)]`). -/
def isValidRow (p : String → Option Nat) (r : RawRecord) : Bool :=
  is_valid_datetime p r.datetime

/-- The valid sub-chunk (`valid_rows`), order preserved. -/
def validRows (p : String → Option Nat) (chunk : List RawRecord) : List RawRecord :=
  chunk.filter (isValidRow p)

/-- Truncate an instant (seconds) down to the start of its hour
(`valid_rows['datetime'].dt.floor('h')`). -/
def hourFloor (t : Nat) : Nat := t / 3600 * 3600

/-- The hour bucket of a row; only ever used on valid rows, where the parse
succeeds. -/
def rowHour (p : String → Option Nat) (r : RawRecord) : Nat :=
  hourFloor ((p r.datetime).getD 0)

/-- The `group_name` column produced by the n=1 dot split of the `class`
column; NaN when the `class` cell is NaN. -/
def group_name (r : RawRecord) : Option String :=
  r.class_path.map fun s => (splitFirstDot s).1

/-- The `class_name` column of the same split; NaN when the `class` cell is
NaN or contains no '.'. -/
def class_name (r : RawRecord) : Option String :=
  r.class_path.bind fun s => (splitFirstDot s).2

/-- Key of `camera_event_counts` (`valid_rows['camera'].value_counts()`;
`value_counts` drops NaN). -/
def cameraKey (r : RawRecord) : Option String := r.camera

/-- Key of `hourly_event_counts`: the groupby key `(hour, camera,
group_start)` over `valid_rows[valid_rows['group_start'].notna()]`; pandas
`groupby` drops a row whose key has any NaN component. -/
def hourlyKey (p : String → Option Nat) (r : RawRecord) : Option (Nat × String × String) :=
  match r.camera, r.group_start with
  | some c, some gs => some (rowHour p r, c, gs)
  | _, _ => none

/-- Key of `group_class_counts`: the groupby key `(group_name, class_name)`;
rows whose `class_name` (or `group_name`) is NaN are dropped by `groupby`. -/
def groupClassKey (r : RawRecord) : Option (String × String) :=
  match group_name r, class_name r with
  | some g, some c => some (g, c)
  | _, _ => none

/-- Counter built from a keyed `value_counts`/`groupby(...).size()`: the
count at `k` is the number of rows whose (non-NaN) key equals `k`. -/
def countKey {κ : Type} [DecidableEq κ] (f : RawRecord → Option κ)
    (rows : List RawRecord) : κ → Nat :=
  fun k => rows.countP fun r => decide (f r = some k)

/-- Minimum of two optional instants, absent treated as identity: the
`if start_time is None or m < start_time` update of sv.py lines 99-100. -/
def mergeOptMin : Option Nat → Option Nat → Option Nat
  | none, b => b
  | some x, none => some x
  | some x, some y => some (min x y)

/-- Maximum of two optional instants, absent treated as identity
(sv.py lines 101-102). -/
def mergeOptMax : Option Nat → Option Nat → Option Nat
  | none, b => b
  | some x, none => some x
  | some x, some y => some (max x y)

/-- `Series.min()` over the parsed datetimes of a list of rows: `none` on an
empty list. -/
def optMinList (l : List Nat) : Option Nat :=
  l.foldr (fun x acc => mergeOptMin (some x) acc) none

/-- `Series.max()` over the parsed datetimes of a list of rows. -/
def optMaxList (l : List Nat) : Option Nat :=
  l.foldr (fun x acc => mergeOptMax (some x) acc) none

/-- The parsed instants of a list of rows (all present on valid rows). -/
def chunkInstants (p : String → Option Nat) (rows : List RawRecord) : List Nat :=
  rows.filterMap fun r => p r.datetime

/-- The Partial Aggregate: the five counters/extrema of one chunk
(`results` of sv_functions.py lines 216-224, equally the running
accumulators of sv.py lines 62-68).  `total_classification_counts` is keyed
by group name, `camera_event_counts` by camera, `hourly_event_counts` by
`(hour, camera, group_start)`, `group_class_counts` by
`(group_name, class_name)`; `start_time`/`end_time` form the time span,
`none` when no valid row was seen. -/
@[ext]
structure PartialAgg where
  total_classification_counts : String → Nat
  camera_event_counts : String → Nat
  hourly_event_counts : Nat × String × String → Nat
  group_class_counts : String × String → Nat
  start_time : Option Nat
  end_time : Option Nat

/-- The freshly initialised aggregate: all counters empty, no time span. -/
def emptyAgg : PartialAgg :=
  { total_classification_counts := fun _ => 0
    camera_event_counts := fun _ => 0
    hourly_event_counts := fun _ => 0
    group_class_counts := fun _ => 0
    start_time := none
    end_time := none }

/-- The aggregate computed from an already-filtered list of valid rows:
the body of `process_chunk` after the validity filter (sv_functions.py
lines 231-264). -/
def aggOfValid (p : String → Option Nat) (valid : List RawRecord) : PartialAgg :=
  { total_classification_counts := countKey group_name valid
    camera_event_counts := countKey cameraKey valid
    hourly_event_counts := countKey (hourlyKey p) valid
    group_class_counts := countKey groupClassKey valid
    start_time := optMinList (chunkInstants p valid)
    end_time := optMaxList (chunkInstants p valid) }

/-- `process_chunk` (sv_functions.py lines 204-266), as a pure value: filter
the chunk to its valid rows and compute the five counters.  The early
return on an empty `valid_rows` produces the same value as the general
path (all counters zero, no time span). -/
def process_chunk (p : String → Option Nat) (chunk : List RawRecord) : PartialAgg :=
  aggOfValid p (validRows p chunk)

/-- The failure condition of the real reducer (see the header comment): the
chunk has valid rows but none of them has a dotted `class` cell, so the
two-column assignment of the n=1 split raises and the chunk aborts. -/
def chunkCrashes (p : String → Option Nat) (chunk : List RawRecord) : Bool :=
  !(validRows p chunk).isEmpty && (validRows p chunk).all fun r => (class_name r).isNone

/-- `process_chunk` as actually run: `none` models the uncaught exception of
the dotless-chunk failure condition, `some` the returned aggregate. -/
def process_chunk_run (p : String → Option Nat) (chunk : List RawRecord) :
    Option PartialAgg :=
  if chunkCrashes p chunk then none else some (process_chunk p chunk)

/-- The Aggregate Merger: key-wise sum of the four counters and min/max of
the time span with absent as identity — the per-chunk accumulation of
sv.py lines 98-129 (`total_classification_counts[group] += count`, etc.). -/
def merge (a b : PartialAgg) : PartialAgg :=
  { total_classification_counts := fun k =>
      a.total_classification_counts k + b.total_classification_counts k
    camera_event_counts := fun k => a.camera_event_counts k + b.camera_event_counts k
    hourly_event_counts := fun k => a.hourly_event_counts k + b.hourly_event_counts k
    group_class_counts := fun k => a.group_class_counts k + b.group_class_counts k
    start_time := mergeOptMin a.start_time b.start_time
    end_time := mergeOptMax a.end_time b.end_time }

/-- sv.py line 26. -/
def chunk_size : Nat := 100000

/-- sv.py lines 55-56: the total-line count (`sum(1 for _ in f)`) scans the
whole file, every physical line included. -/
def totalLines (file : List String) : Nat := file.length

/-- sv.py line 57: ceiling division of the line count by the chunk size. -/
def total_chunks (file : List String) : Nat :=
  (totalLines file + chunk_size - 1) / chunk_size

/-- The Chunking Driver's fold: reduce each batch and merge the results, in
batch order, into the running aggregate (sv.py lines 72-129). -/
def driveChunks (p : String → Option Nat) (chunks : List (List RawRecord)) : PartialAgg :=
  chunks.foldl (fun acc c => merge acc (process_chunk p c)) emptyAgg

/-- The driver's fold as actually run: an aborting chunk (see
`chunkCrashes`) aborts the whole run with no final aggregate. -/
def driveChunksRun (p : String → Option Nat) (chunks : List (List RawRecord)) :
    Option PartialAgg :=
  if chunks.all (fun c => !chunkCrashes p c) then some (driveChunks p chunks) else none

/-- Outcome of a run of sv.py main: the two fatal conditions of lines
131-138 are distinct constructors, structurally distinguishable by a
caller. -/
inductive RunResult where
  | fatalFileNotFound : RunResult
  | fatalNoValidData : RunResult
  | success : PartialAgg → RunResult

/-- The driver's fatal-path skeleton (sv.py main): a missing log file fails
immediately (`except FileNotFoundError: sys.exit(1)`, line 131-133, with
nothing yet produced); an opened log whose rows yield no valid record
fails after the scan (`if not aggregated_rows: sys.exit(1)`, lines 136-138 —
`aggregated_rows` is empty exactly when no chunk had a valid row).  The
success value is the full-log aggregate (equal to the chunked fold by
`process_chunk`'s append homomorphism). -/
def runMain (p : String → Option Nat) (file : Option (List String)) : RunResult :=
  match file with
  | none => RunResult.fatalFileNotFound
  | some lines =>
    let rows := lines.map parseLine
    if (validRows p rows).isEmpty then RunResult.fatalNoValidData
    else RunResult.success (process_chunk p rows)

/-- Process exit status of each outcome: `sys.exit(1)` on both fatal paths,
0 otherwise. -/
def exitCode : RunResult → Nat
  | RunResult.success _ => 0
  | _ => 1

/-- A binary grouping of merges: the shape of an arbitrary parenthesisation
of `merge` over a list of Partial Aggregates. -/
inductive MergeTree where
  | leaf : PartialAgg → MergeTree
  | node : MergeTree → MergeTree → MergeTree

/-- Evaluate a grouping by merging bottom-up. -/
def MergeTree.eval : MergeTree → PartialAgg
  | MergeTree.leaf a => a
  | MergeTree.node l r => merge l.eval r.eval

/-- The Partial Aggregates at the leaves, left to right. -/
def MergeTree.leaves : MergeTree → List PartialAgg
  | MergeTree.leaf a => [a]
  | MergeTree.node l r => l.leaves ++ r.leaves

/-- Linear fold of a list of Partial Aggregates. -/
def foldMerge (l : List PartialAgg) : PartialAgg := l.foldr merge emptyAgg

/-- C10's invariant, stated over finite samples: for every camera `s` and
every duplicate-free list of `(hour, group_start)` pairs, the summed hourly
counts at those keys for `s` are bounded by the camera's event count.
(The counters have finite support, so this is the claim's "sum of all
entries whose key contains s".) -/
def HourlyLeSource (A : PartialAgg) : Prop :=
  ∀ (s : String) (L : List (Nat × String)), L.Nodup →
    (L.map fun hg => A.hourly_event_counts (hg.1, s, hg.2)).sum ≤
      A.camera_event_counts s

/-- The hourly key restricted to one camera `s`: the `(hour, group_start)`
part of a key whose camera component is `s` (proof device for C10). -/
def hourlyKeyAt (p : String → Option Nat) (s : String) (r : RawRecord) :
    Option (Nat × String) :=
  match hourlyKey p r with
  | some (h, c, g) => if c = s then some (h, g) else none
  | none => none

/-- ASCII lower-casing of a string, for the case-insensitive header-name
comparison described by the spec (§4.4). -/
def lowerString (s : String) : String := String.mk (s.data.map Char.toLower)

/-- Test fixture: a parser defined on the two instants used by the concrete
witnesses (seconds into 2024-01-01; 10:00 and 10:15). -/
def sampleParse : String → Option Nat := fun s =>
  if s = "2024-01-01 10:00:00" then some 36000
  else if s = "2024-01-01 10:15:00" then some 36900
  else none

/-- Test fixture: a valid event-opening row (dotted class, camera present,
`group_start` marker present). -/
def recOpen : RawRecord :=
  { datetime := "2024-01-01 10:00:00"
    camera := some "camA"
    group := some "birds"
    group_score := some "0.9"
    class_path := some "birds.crow"
    class_score := some "0.8"
    group_start := some "open"
    group_end := none }

/-- Test fixture: a valid row without a `group_start` marker. -/
def recPlain : RawRecord :=
  { datetime := "2024-01-01 10:15:00"
    camera := some "camA"
    group := some "birds"
    group_score := some "0.7"
    class_path := some "birds.crow"
    class_score := some "0.6"
    group_start := none
    group_end := none }

/-- Test fixture: a valid row whose `class` cell has no dot. -/
def recEnv : RawRecord :=
  { datetime := "2024-01-01 10:15:00"
    camera := some "camA"
    group := some "environment"
    group_score := some "0.5"
    class_path := some "environment"
    class_score := some "0.4"
    group_start := none
    group_end := none }

/-- Test fixture: a row sharing `recOpen`'s timestamp with every other cell
different. -/
def recNoMark : RawRecord :=
  { datetime := "2024-01-01 10:00:00"
    camera := some "camB"
    group := none
    group_score := none
    class_path := some "people.talk"
    class_score := none
    group_start := none
    group_end := some "close" }

/-- Test fixture: a row whose timestamp does not parse. -/
def recBad : RawRecord :=
  { datetime := "not-a-date"
    camera := some "camA"
    group := some "people"
    group_score := some "0.5"
    class_path := some "people.talk"
    class_score := some "0.4"
    group_start := none
    group_end := none }

/-- Test fixture: the optional header line of the log. -/
def hdrLine : String :=
  "datetime,camera,group,group_score,class,class_score,group_start,group_end"

/-- Test fixture: one well-formed data line. -/
def rowLine : String :=
  "2024-01-01 10:00:00,camA,birds,0.9,birds.crow,0.8,open,"

/-- Test fixture: a concrete Partial Aggregate. -/
def aggA : PartialAgg :=
  { total_classification_counts := fun g => if g = "birds" then 2 else 0
    camera_event_counts := fun c => if c = "camA" then 2 else 0
    hourly_event_counts := fun k => if k = (36000, "camA", "open") then 1 else 0
    group_class_counts := fun k => if k = ("birds", "crow") then 2 else 0
    start_time := some 36000
    end_time := some 36900 }

/-- Test fixture: a second concrete Partial Aggregate. -/
def aggB : PartialAgg :=
  { total_classification_counts := fun g => if g = "people" then 1 else 0
    camera_event_counts := fun c => if c = "camB" then 1 else 0
    hourly_event_counts := fun _ => 0
    group_class_counts := fun k => if k = ("people", "talk") then 1 else 0
    start_time := some 40000
    end_time := some 41000 }

/-! Algebra of the merge operation. -/

theorem mergeOptMin_none_left (b : Option Nat) : mergeOptMin none b = b := rfl

theorem mergeOptMin_none_right (a : Option Nat) : mergeOptMin a none = a := by
  cases a <;> rfl

theorem mergeOptMax_none_left (b : Option Nat) : mergeOptMax none b = b := rfl

theorem mergeOptMax_none_right (a : Option Nat) : mergeOptMax a none = a := by
  cases a <;> rfl

theorem mergeOptMin_comm (a b : Option Nat) : mergeOptMin a b = mergeOptMin b a := by
  cases a <;> cases b <;> simp [mergeOptMin, Nat.min_comm]

theorem mergeOptMax_comm (a b : Option Nat) : mergeOptMax a b = mergeOptMax b a := by
  cases a <;> cases b <;> simp [mergeOptMax, Nat.max_comm]

theorem mergeOptMin_assoc (a b c : Option Nat) :
    mergeOptMin (mergeOptMin a b) c = mergeOptMin a (mergeOptMin b c) := by
  cases a <;> cases b <;> cases c <;> simp [mergeOptMin, Nat.min_assoc]

theorem mergeOptMax_assoc (a b c : Option Nat) :
    mergeOptMax (mergeOptMax a b) c = mergeOptMax a (mergeOptMax b c) := by
  cases a <;> cases b <;> cases c <;> simp [mergeOptMax, Nat.max_assoc]

theorem merge_comm (a b : PartialAgg) : merge a b = merge b a := by
  apply PartialAgg.ext
  · funext k; exact Nat.add_comm _ _
  · funext k; exact Nat.add_comm _ _
  · funext k; exact Nat.add_comm _ _
  · funext k; exact Nat.add_comm _ _
  · exact mergeOptMin_comm _ _
  · exact mergeOptMax_comm _ _

theorem merge_assoc (a b c : PartialAgg) :
    merge (merge a b) c = merge a (merge b c) := by
  apply PartialAgg.ext
  · funext k; exact Nat.add_assoc _ _ _
  · funext k; exact Nat.add_assoc _ _ _
  · funext k; exact Nat.add_assoc _ _ _
  · funext k; exact Nat.add_assoc _ _ _
  · exact mergeOptMin_assoc _ _ _
  · exact mergeOptMax_assoc _ _ _

theorem merge_empty_left (a : PartialAgg) : merge emptyAgg a = a := by
  apply PartialAgg.ext
  · funext k; exact Nat.zero_add _
  · funext k; exact Nat.zero_add _
  · funext k; exact Nat.zero_add _
  · funext k; exact Nat.zero_add _
  · exact mergeOptMin_none_left _
  · exact mergeOptMax_none_left _

theorem merge_empty_right (a : PartialAgg) : merge a emptyAgg = a := by
  apply PartialAgg.ext
  · funext k; exact Nat.add_zero _
  · funext k; exact Nat.add_zero _
  · funext k; exact Nat.add_zero _
  · funext k; exact Nat.add_zero _
  · exact mergeOptMin_none_right _
  · exact mergeOptMax_none_right _

/-! Append/homomorphism lemmas for the chunk reducer. -/

theorem optMinList_foldr (xs : List Nat) (acc : Option Nat) :
    xs.foldr (fun x a => mergeOptMin (some x) a) acc
      = mergeOptMin (optMinList xs) acc := by
  induction xs with
  | nil => rfl
  | cons x xs ih =>
    show mergeOptMin (some x) (xs.foldr _ acc) = _
    rw [ih, ← mergeOptMin_assoc]
    rfl

theorem optMaxList_foldr (xs : List Nat) (acc : Option Nat) :
    xs.foldr (fun x a => mergeOptMax (some x) a) acc
      = mergeOptMax (optMaxList xs) acc := by
  induction xs with
  | nil => rfl
  | cons x xs ih =>
    show mergeOptMax (some x) (xs.foldr _ acc) = _
    rw [ih, ← mergeOptMax_assoc]
    rfl

theorem optMinList_append (xs ys : List Nat) :
    optMinList (xs ++ ys) = mergeOptMin (optMinList xs) (optMinList ys) := by
  unfold optMinList
  rw [List.foldr_append]
  exact optMinList_foldr xs _

theorem optMaxList_append (xs ys : List Nat) :
    optMaxList (xs ++ ys) = mergeOptMax (optMaxList xs) (optMaxList ys) := by
  unfold optMaxList
  rw [List.foldr_append]
  exact optMaxList_foldr xs _

theorem validRows_append (p : String → Option Nat) (xs ys : List RawRecord) :
    validRows p (xs ++ ys) = validRows p xs ++ validRows p ys := by
  simp [validRows]

theorem chunkInstants_append (p : String → Option Nat) (xs ys : List RawRecord) :
    chunkInstants p (xs ++ ys) = chunkInstants p xs ++ chunkInstants p ys := by
  simp [chunkInstants]

theorem countKey_append {κ : Type} [DecidableEq κ] (f : RawRecord → Option κ)
    (xs ys : List RawRecord) (k : κ) :
    countKey f (xs ++ ys) k = countKey f xs k + countKey f ys k := by
  simp [countKey, List.countP_append]

theorem process_chunk_append (p : String → Option Nat) (xs ys : List RawRecord) :
    process_chunk p (xs ++ ys) = merge (process_chunk p xs) (process_chunk p ys) := by
  apply PartialAgg.ext
  · funext k
    show countKey group_name (validRows p (xs ++ ys)) k = _
    rw [validRows_append, countKey_append]; rfl
  · funext k
    show countKey cameraKey (validRows p (xs ++ ys)) k = _
    rw [validRows_append, countKey_append]; rfl
  · funext k
    show countKey (hourlyKey p) (validRows p (xs ++ ys)) k = _
    rw [validRows_append, countKey_append]; rfl
  · funext k
    show countKey groupClassKey (validRows p (xs ++ ys)) k = _
    rw [validRows_append, countKey_append]; rfl
  · show optMinList (chunkInstants p (validRows p (xs ++ ys))) = _
    rw [validRows_append, chunkInstants_append, optMinList_append]; rfl
  · show optMaxList (chunkInstants p (validRows p (xs ++ ys))) = _
    rw [validRows_append, chunkInstants_append, optMaxList_append]; rfl

theorem process_chunk_nil (p : String → Option Nat) : process_chunk p [] = emptyAgg := rfl

theorem foldl_merge (p : String → Option Nat) (chunks : List (List RawRecord))
    (A : PartialAgg) :
    chunks.foldl (fun acc c => merge acc (process_chunk p c)) A
      = merge A (process_chunk p chunks.flatten) := by
  induction chunks generalizing A with
  | nil => simp only [List.foldl_nil, List.flatten_nil, process_chunk_nil, merge_empty_right]
  | cons c cs ih =>
    simp only [List.foldl_cons, List.flatten_cons]
    rw [ih, merge_assoc, ← process_chunk_append]

theorem driveChunks_eq (p : String → Option Nat) (chunks : List (List RawRecord)) :
    driveChunks p chunks = process_chunk p chunks.flatten := by
  unfold driveChunks
  rw [foldl_merge, merge_empty_left]

/-! Fold and permutation lemmas for lists of Partial Aggregates. -/

theorem foldMerge_nil : foldMerge [] = emptyAgg := rfl

theorem foldMerge_cons (a : PartialAgg) (l : List PartialAgg) :
    foldMerge (a :: l) = merge a (foldMerge l) := rfl

theorem foldMerge_append (xs ys : List PartialAgg) :
    foldMerge (xs ++ ys) = merge (foldMerge xs) (foldMerge ys) := by
  induction xs with
  | nil =>
    show foldMerge ys = merge emptyAgg (foldMerge ys)
    rw [merge_empty_left]
  | cons x xs ih =>
    show foldMerge (x :: (xs ++ ys)) = _
    rw [foldMerge_cons, ih, foldMerge_cons, merge_assoc]

theorem MergeTree.eval_eq_foldMerge (t : MergeTree) : t.eval = foldMerge t.leaves := by
  induction t with
  | leaf a =>
    show a = foldMerge [a]
    rw [foldMerge_cons, foldMerge_nil, merge_empty_right]
  | node l r ihl ihr =>
    show merge l.eval r.eval = foldMerge (l.leaves ++ r.leaves)
    rw [ihl, ihr, foldMerge_append]

theorem foldMerge_perm {l₁ l₂ : List PartialAgg} (h : l₁.Perm l₂) :
    foldMerge l₁ = foldMerge l₂ := by
  induction h with
  | nil => rfl
  | cons x _ ih => rw [foldMerge_cons, foldMerge_cons, ih]
  | swap x y l =>
    rw [foldMerge_cons, foldMerge_cons, foldMerge_cons, foldMerge_cons,
      ← merge_assoc, ← merge_assoc, merge_comm y x]
  | trans _ _ ih₁ ih₂ => rw [ih₁, ih₂]

/-! Lemmas about invalid rows and empty chunks. -/

theorem filter_self_idem {α : Type} (f : α → Bool) (l : List α) :
    (l.filter f).filter f = l.filter f := by
  induction l with
  | nil => rfl
  | cons x xs ih => cases h : f x <;> simp [List.filter_cons, h, ih]

theorem process_chunk_filter (p : String → Option Nat) (chunk : List RawRecord) :
    process_chunk p (validRows p chunk) = process_chunk p chunk := by
  unfold process_chunk validRows
  rw [filter_self_idem]

theorem validRows_cons_invalid (p : String → Option Nat) (r : RawRecord)
    (chunk : List RawRecord) (h : isValidRow p r = false) :
    validRows p (r :: chunk) = validRows p chunk := by
  simp [validRows, List.filter_cons, h]

theorem process_chunk_cons_invalid (p : String → Option Nat) (r : RawRecord)
    (chunk : List RawRecord) (h : isValidRow p r = false) :
    process_chunk p (r :: chunk) = process_chunk p chunk := by
  unfold process_chunk
  rw [validRows_cons_invalid p r chunk h]

theorem chunkCrashes_cons_invalid (p : String → Option Nat) (r : RawRecord)
    (chunk : List RawRecord) (h : isValidRow p r = false) :
    chunkCrashes p (r :: chunk) = chunkCrashes p chunk := by
  unfold chunkCrashes
  rw [validRows_cons_invalid p r chunk h]

theorem process_chunk_run_cons_invalid (p : String → Option Nat) (r : RawRecord)
    (chunk : List RawRecord) (h : isValidRow p r = false) :
    process_chunk_run p (r :: chunk) = process_chunk_run p chunk := by
  unfold process_chunk_run
  rw [chunkCrashes_cons_invalid p r chunk h, process_chunk_cons_invalid p r chunk h]

theorem process_chunk_eq_empty (p : String → Option Nat) (chunk : List RawRecord)
    (h : validRows p chunk = []) : process_chunk p chunk = emptyAgg := by
  unfold process_chunk
  rw [h]
  rfl

theorem chunkCrashes_eq_false_of_no_valid (p : String → Option Nat)
    (chunk : List RawRecord) (h : validRows p chunk = []) :
    chunkCrashes p chunk = false := by
  unfold chunkCrashes
  rw [h]
  rfl

/-! Lemmas about the time span. -/

theorem optMinList_eq_none_iff (l : List Nat) : optMinList l = none ↔ l = [] := by
  cases l with
  | nil => simp [optMinList]
  | cons x xs =>
    show mergeOptMin (some x) _ = none ↔ _
    cases h : xs.foldr (fun x acc => mergeOptMin (some x) acc) none <;>
      simp [mergeOptMin]

theorem optMaxList_eq_none_iff (l : List Nat) : optMaxList l = none ↔ l = [] := by
  cases l with
  | nil => simp [optMaxList]
  | cons x xs =>
    show mergeOptMax (some x) _ = none ↔ _
    cases h : xs.foldr (fun x acc => mergeOptMax (some x) acc) none <;>
      simp [mergeOptMax]

theorem chunkInstants_validRows_eq_nil_iff (p : String → Option Nat)
    (chunk : List RawRecord) :
    chunkInstants p (validRows p chunk) = [] ↔ validRows p chunk = [] := by
  constructor
  · intro h
    cases hv : validRows p chunk with
    | nil => rfl
    | cons r rs =>
      exfalso
      have hmem : r ∈ chunk.filter (isValidRow p) := by
        show r ∈ validRows p chunk
        rw [hv]
        exact List.mem_cons_self r rs
      have hr : isValidRow p r = true := List.of_mem_filter hmem
      obtain ⟨t, ht⟩ := Option.isSome_iff_exists.mp hr
      rw [hv] at h
      simp [chunkInstants, List.filterMap_cons, ht] at h
  · intro h
    rw [h]
    rfl

/-! Counting lemmas for the hourly-versus-camera bound (C10). -/

theorem sum_map_add {κ : Type} (f g : κ → Nat) (L : List κ) :
    (L.map fun k => f k + g k).sum = (L.map f).sum + (L.map g).sum := by
  induction L with
  | nil => rfl
  | cons a L ih =>
    simp only [List.map_cons, List.sum_cons, ih]
    omega

theorem sum_indicator_le_one {κ : Type} [DecidableEq κ] (v : Option κ) (L : List κ)
    (h : L.Nodup) :
    (L.map fun k => if v = some k then 1 else 0).sum ≤ 1 := by
  induction L with
  | nil => simp
  | cons a L ih =>
    obtain ⟨ha, hL⟩ := List.nodup_cons.mp h
    by_cases hv : v = some a
    · have htail : (L.map fun k => if v = some k then 1 else 0).sum = 0 := by
        apply List.sum_eq_zero
        intro x hx
        obtain ⟨k, hk, rfl⟩ := List.mem_map.mp hx
        have hne : v ≠ some k := by
          rw [hv]
          intro hcon
          have hak : a = k := Option.some.inj hcon
          exact ha (by rw [hak]; exact hk)
        simp [hne]
      simp only [List.map_cons, List.sum_cons, htail, if_pos hv]
      omega
    · simp only [List.map_cons, List.sum_cons, if_neg hv]
      simpa using ih hL

theorem countP_key_sum_le {κ : Type} [DecidableEq κ] (keyf : RawRecord → Option κ)
    (q : RawRecord → Bool) (hkq : ∀ r k, keyf r = some k → q r = true)
    (rows : List RawRecord) (L : List κ) (hnd : L.Nodup) :
    (L.map fun k => rows.countP fun r => decide (keyf r = some k)).sum
      ≤ rows.countP q := by
  induction rows with
  | nil => simp
  | cons r rows ih =>
    have hmap : (fun k => (r :: rows).countP fun x => decide (keyf x = some k))
        = fun k => (rows.countP fun x => decide (keyf x = some k))
            + (if keyf r = some k then 1 else 0) := by
      funext k
      rw [List.countP_cons]
      by_cases h : keyf r = some k <;> simp [h]
    rw [hmap, sum_map_add, List.countP_cons]
    have hind : (L.map fun k => if keyf r = some k then 1 else 0).sum
        ≤ if q r then 1 else 0 := by
      cases hk : keyf r with
      | none =>
        have : (L.map fun k => if (none : Option κ) = some k then 1 else 0).sum = 0 := by
          apply List.sum_eq_zero
          intro x hx
          obtain ⟨k, _, rfl⟩ := List.mem_map.mp hx
          simp
        rw [this]
        exact Nat.zero_le _
      | some k0 =>
        have hq : q r = true := hkq r k0 hk
        rw [hq, if_pos rfl]
        exact sum_indicator_le_one (some k0) L hnd
    exact Nat.add_le_add ih hind

theorem hourlyKeyAt_decide (p : String → Option Nat) (s : String) (r : RawRecord)
    (hg : Nat × String) :
    decide (hourlyKey p r = some (hg.1, s, hg.2)) = decide (hourlyKeyAt p s r = some hg) := by
  cases hh : hourlyKey p r with
  | none => simp [hourlyKeyAt, hh]
  | some hcg =>
    obtain ⟨h, c, g⟩ := hcg
    by_cases hc : c = s
    · subst hc
      simp [hourlyKeyAt, hh, Prod.ext_iff]
    · simp [hourlyKeyAt, hh, hc, Prod.ext_iff]

theorem hourlyKeyAt_camera (p : String → Option Nat) (s : String) (r : RawRecord)
    (k : Nat × String) (h : hourlyKeyAt p s r = some k) :
    cameraKey r = some s := by
  unfold hourlyKeyAt at h
  cases hh : hourlyKey p r with
  | none => rw [hh] at h; simp at h
  | some hcg =>
    obtain ⟨h', c', g'⟩ := hcg
    rw [hh] at h
    by_cases hc : c' = s
    · subst hc
      unfold hourlyKey at hh
      cases hcam : r.camera with
      | none => rw [hcam] at hh; simp at hh
      | some c0 =>
        cases hgs : r.group_start with
        | none => rw [hcam, hgs] at hh; simp at hh
        | some g0 =>
          rw [hcam, hgs] at hh
          simp only [Option.some.injEq, Prod.mk.injEq] at hh
          show r.camera = some c'
          rw [hcam, hh.2.1]
    · simp [hc] at h

/-- The per-chunk bound behind C10: in any chunk's aggregate, any
duplicate-free sample of hourly keys for camera `s` sums to at most the
camera's event count. -/
theorem hourly_le_camera_chunk (p : String → Option Nat) (chunk : List RawRecord) :
    HourlyLeSource (process_chunk p chunk) := by
  intro s L hnd
  show (L.map fun hg =>
      countKey (hourlyKey p) (validRows p chunk) (hg.1, s, hg.2)).sum
    ≤ countKey cameraKey (validRows p chunk) s
  have hrw : (fun hg : Nat × String =>
      countKey (hourlyKey p) (validRows p chunk) (hg.1, s, hg.2))
      = fun hg => (validRows p chunk).countP fun r =>
          decide (hourlyKeyAt p s r = some hg) := by
    funext hg
    unfold countKey
    apply List.countP_congr
    intro r _
    rw [hourlyKeyAt_decide p s r hg]
  rw [hrw]
  exact countP_key_sum_le (hourlyKeyAt p s) (fun r => decide (cameraKey r = some s))
    (fun r k hk => by
      show decide (cameraKey r = some s) = true
      rw [hourlyKeyAt_camera p s r k hk]
      simp)
    (validRows p chunk) L hnd

/-- Merging preserves the C10 bound. -/
theorem hourly_le_camera_merge (A B : PartialAgg) (hA : HourlyLeSource A)
    (hB : HourlyLeSource B) : HourlyLeSource (merge A B) := by
  intro s L hnd
  show (L.map fun hg => A.hourly_event_counts (hg.1, s, hg.2)
      + B.hourly_event_counts (hg.1, s, hg.2)).sum
    ≤ A.camera_event_counts s + B.camera_event_counts s
  rw [sum_map_add]
  exact Nat.add_le_add (hA s L hnd) (hB s L hnd)

/-! The ten claims. -/

/-- C1: folding any list of Partial Aggregates with `merge`, in any
permutation and under any binary grouping, yields the same Accumulated
Aggregate (deep equality on all four count mappings and the time span):
two merge trees with permuted leaf lists evaluate to equal aggregates. -/
theorem c1_merge_invariance (t₁ t₂ : MergeTree) (h : t₁.leaves.Perm t₂.leaves) :
    t₁.eval = t₂.eval := by
  rw [MergeTree.eval_eq_foldMerge, MergeTree.eval_eq_foldMerge]
  exact foldMerge_perm h

/-- Witness for C1 at two concrete aggregates and a concrete swap of the
grouping. -/
theorem c1_merge_invariance_witness :
    (MergeTree.node (MergeTree.leaf aggA) (MergeTree.leaf aggB)).eval
      = (MergeTree.node (MergeTree.leaf aggB) (MergeTree.leaf aggA)).eval :=
  c1_merge_invariance _ _ (List.Perm.swap aggB aggA [])

/-- C2 counterexample: the same two rows, as one whole-file batch versus two
size-1 batches, do not yield identical results — the size-1 partition
isolates the dotless-class row `recEnv` into a chunk that aborts (the n=1
dot split expands to a single column and the two-column assignment raises),
while the whole-file batch succeeds. -/
theorem c2_counterexample :
    ([[recOpen, recEnv]] : List (List RawRecord)).flatten
        = ([[recOpen], [recEnv]] : List (List RawRecord)).flatten
    ∧ (driveChunksRun sampleParse [[recOpen], [recEnv]]).isNone = true
    ∧ (driveChunksRun sampleParse [[recOpen, recEnv]]).isSome = true
    ∧ driveChunksRun sampleParse [[recOpen, recEnv]]
        ≠ driveChunksRun sampleParse [[recOpen], [recEnv]] :=
  ⟨by decide, by decide, by decide,
    fun h => absurd (congrArg Option.isNone h) (by decide)⟩

/-- C2 (amended): provided every batch of both partitions is free of the
dotless-chunk abort (every batch with a valid row also has a valid row with
a dotted class), any two partitions of the same rows produce the same
Accumulated Aggregate, equal to reducing the whole row list at once. -/
theorem c2_amended (p : String → Option Nat) (parts₁ parts₂ : List (List RawRecord))
    (hj : parts₁.flatten = parts₂.flatten)
    (h1 : ∀ c ∈ parts₁, chunkCrashes p c = false)
    (h2 : ∀ c ∈ parts₂, chunkCrashes p c = false) :
    driveChunksRun p parts₁ = driveChunksRun p parts₂
    ∧ driveChunksRun p parts₁ = some (process_chunk p parts₁.flatten) := by
  have e1 : (parts₁.all fun c => !chunkCrashes p c) = true := by
    rw [List.all_eq_true]
    intro c hc
    rw [h1 c hc]
    rfl
  have e2 : (parts₂.all fun c => !chunkCrashes p c) = true := by
    rw [List.all_eq_true]
    intro c hc
    rw [h2 c hc]
    rfl
  refine ⟨?_, ?_⟩ <;> simp [driveChunksRun, e1, e2, driveChunks_eq, hj]

/-- Witness for C2 (amended) at two crash-free partitions of the same two
rows. -/
theorem c2_amended_witness :
    driveChunksRun sampleParse [[recOpen], [recPlain]]
      = driveChunksRun sampleParse [[recOpen, recPlain]] :=
  (c2_amended sampleParse [[recOpen], [recPlain]] [[recOpen, recPlain]]
    (by decide) (by decide) (by decide)).1

/-- C3 (code bug, evaluated at the failing input): for the dotless
`class_path` "environment", normalization yields `group_name` equal to the
whole string but `class_name` absent (NaN), not the empty string; in a mixed
chunk the record is counted in `classification_counts["environment"]` yet
contributes nothing to `group_class_counts` (pandas `groupby` drops NaN
keys), so `group_class_counts[("environment", "")]` stays 0; and a chunk
whose valid rows are all dotless aborts outright. -/
theorem c3_dotless_eval :
    group_name recEnv = some "environment"
    ∧ class_name recEnv = none
    ∧ (process_chunk sampleParse [recOpen, recEnv]).total_classification_counts
        "environment" = 1
    ∧ (process_chunk sampleParse [recOpen, recEnv]).group_class_counts
        ("environment", "") = 0
    ∧ (process_chunk_run sampleParse [recEnv]).isNone = true := by
  decide

/-- C4 counterexample: with a header line (first field literally
"datetime") followed by one data line, the total-line count that feeds the
chunk estimate (sv.py lines 55-57) is 2, not the 1 the claim's
header-exclusion would give — the driver never excludes the header from the
estimate. -/
theorem c4_counterexample :
    lowerString (parseLine hdrLine).datetime = "datetime"
    ∧ totalLines [hdrLine, rowLine] = 2
    ∧ ¬ totalLines [hdrLine, rowLine] = ([rowLine] : List String).length := by
  decide

/-- C4 (amended): a first line whose first field is the timestamp column
name (case-insensitively) is included in the total-line estimate — the
estimate is exactly the number of physical lines, header included — but the
line contributes to none of the five aggregates, because the column name
fails date-time parsing and the row is filtered out as invalid. -/
theorem c4_amended (p : String → Option Nat) (hdr : String) (rest : List String)
    (parts₁ parts₂ : List (List RawRecord))
    (_hname : lowerString (parseLine hdr).datetime = "datetime")
    (hp : p (parseLine hdr).datetime = none)
    (hj1 : parts₁.flatten = (hdr :: rest).map parseLine)
    (hj2 : parts₂.flatten = rest.map parseLine) :
    driveChunks p parts₁ = driveChunks p parts₂
    ∧ totalLines (hdr :: rest) = rest.length + 1 := by
  constructor
  · rw [driveChunks_eq, driveChunks_eq, hj1, hj2, List.map_cons]
    apply process_chunk_cons_invalid
    simp [isValidRow, is_valid_datetime, hp]
  · simp [totalLines]

/-- Witness for C4 (amended) at the concrete header and data line. -/
theorem c4_amended_witness :
    driveChunks sampleParse [[parseLine hdrLine, parseLine rowLine]]
      = driveChunks sampleParse [[parseLine rowLine]]
    ∧ totalLines [hdrLine, rowLine] = 2 :=
  c4_amended sampleParse hdrLine [rowLine]
    [[parseLine hdrLine, parseLine rowLine]] [[parseLine rowLine]]
    (by decide) (by decide) (by decide) (by decide)

/-- C5: a raw record is valid exactly when its `datetime` cell parses;
validity is a function of the `datetime` cell alone (any two records with
the same `datetime` cell agree on validity, whatever their other cells);
the reducer computes the same aggregate from a chunk as from its valid
subset; and prepending an invalid record changes nothing — not the five
counters and not the abort behaviour, so an invalid record never aborts the
chunk. -/
theorem c5_validity (p : String → Option Nat) (r₁ r₂ : RawRecord)
    (chunk : List RawRecord) :
    (isValidRow p r₁ = (p r₁.datetime).isSome)
    ∧ (r₁.datetime = r₂.datetime → isValidRow p r₁ = isValidRow p r₂)
    ∧ process_chunk p chunk = process_chunk p (validRows p chunk)
    ∧ (isValidRow p r₁ = false →
        process_chunk_run p (r₁ :: chunk) = process_chunk_run p chunk) := by
  refine ⟨rfl, ?_, (process_chunk_filter p chunk).symm, ?_⟩
  · intro h
    simp [isValidRow, is_valid_datetime, h]
  · intro h
    exact process_chunk_run_cons_invalid p r₁ chunk h

/-- Witness for C5: two records sharing a timestamp agree on validity, and
an invalid record prepended to a chunk leaves the run outcome unchanged. -/
theorem c5_validity_witness :
    isValidRow sampleParse recOpen = isValidRow sampleParse recNoMark
    ∧ process_chunk_run sampleParse (recBad :: [recOpen])
        = process_chunk_run sampleParse [recOpen] :=
  ⟨(c5_validity sampleParse recOpen recNoMark [recOpen]).2.1 (by decide),
   (c5_validity sampleParse recBad recNoMark [recOpen]).2.2.2 (by decide)⟩

/-- C6: for two valid records identical except for `group_start` (one
carrying a marker, one absent), both reduce without aborting, they produce
identical `classification_counts`, `source_event_counts` and
`group_class_counts`, and only the marked one increments
`hourly_event_counts` — at the key `(hour bucket, source id, group_start
value)` — while the unmarked one leaves every hourly count at zero. -/
theorem c6_asymmetry (p : String → Option Nat) (r : RawRecord) (c gs : String)
    (hv : isValidRow p r = true) (hc : r.camera = some c)
    (hgs : r.group_start = some gs) (hdot : (class_name r).isSome = true) :
    (process_chunk_run p [r]).isSome = true
    ∧ (process_chunk_run p [{ r with group_start := none }]).isSome = true
    ∧ (process_chunk p [r]).total_classification_counts
        = (process_chunk p [{ r with group_start := none }]).total_classification_counts
    ∧ (process_chunk p [r]).camera_event_counts
        = (process_chunk p [{ r with group_start := none }]).camera_event_counts
    ∧ (process_chunk p [r]).group_class_counts
        = (process_chunk p [{ r with group_start := none }]).group_class_counts
    ∧ (process_chunk p [r]).hourly_event_counts (rowHour p r, c, gs) = 1
    ∧ (∀ k, (process_chunk p [{ r with group_start := none }]).hourly_event_counts k = 0) := by
  have hv' : isValidRow p { r with group_start := none } = true := hv
  have hvalid : validRows p [r] = [r] := by
    simp [validRows, List.filter_cons, hv]
  have hvalid' : validRows p [{ r with group_start := none }]
      = [{ r with group_start := none }] := by
    simp [validRows, List.filter_cons, hv']
  have e1 : process_chunk p [r] = aggOfValid p [r] := by
    unfold process_chunk
    rw [hvalid]
  have e2 : process_chunk p [{ r with group_start := none }]
      = aggOfValid p [{ r with group_start := none }] := by
    unfold process_chunk
    rw [hvalid']
  obtain ⟨cn, hcn⟩ := Option.isSome_iff_exists.mp hdot
  have hcn' : class_name { r with group_start := none } = some cn := hcn
  have hcrash : chunkCrashes p [r] = false := by
    unfold chunkCrashes
    rw [hvalid]
    simp [hcn]
  have hcrash' : chunkCrashes p [{ r with group_start := none }] = false := by
    unfold chunkCrashes
    rw [hvalid']
    simp [hcn']
  have hk : hourlyKey p r = some (rowHour p r, c, gs) := by
    unfold hourlyKey
    rw [hc, hgs]
  have hk' : hourlyKey p { r with group_start := none } = none := by
    show (match ({ r with group_start := none } : RawRecord).camera,
        (none : Option String) with
      | some c0, some gs0 =>
          some (rowHour p { r with group_start := none }, c0, gs0)
      | _, _ => none) = none
    cases ({ r with group_start := none } : RawRecord).camera <;> rfl
  refine ⟨?_, ?_, ?_, ?_, ?_, ?_, ?_⟩
  · simp [process_chunk_run, hcrash]
  · simp [process_chunk_run, hcrash']
  · rw [e1, e2]; rfl
  · rw [e1, e2]; rfl
  · rw [e1, e2]; rfl
  · rw [e1]
    show countKey (hourlyKey p) [r] (rowHour p r, c, gs) = 1
    simp [countKey, hk]
  · intro k
    rw [e2]
    show countKey (hourlyKey p) [{ r with group_start := none }] k = 0
    simp [countKey, hk']

/-- Witness for C6 at the concrete marked row `recOpen`. -/
theorem c6_asymmetry_witness :
    (process_chunk sampleParse [recOpen]).hourly_event_counts
        (rowHour sampleParse recOpen, "camA", "open") = 1
    ∧ (process_chunk_run sampleParse [{ recOpen with group_start := none }]).isSome
        = true :=
  ⟨(c6_asymmetry sampleParse recOpen "camA" "open"
      (by decide) (by decide) (by decide) (by decide)).2.2.2.2.2.1,
   (c6_asymmetry sampleParse recOpen "camA" "open"
      (by decide) (by decide) (by decide) (by decide)).2.1⟩

/-- C7: a chunk's time span is the min/max over the parsed timestamps of its
valid rows and is absent exactly when the chunk has no valid rows; merge
combines spans by min/max with absent as identity; and the driver's final
aggregate carries the global min/max over the valid rows of the whole
log. -/
theorem c7_time_span (p : String → Option Nat) (chunk : List RawRecord)
    (chunks : List (List RawRecord)) (A B : PartialAgg) (x y : Nat) :
    (process_chunk p chunk).start_time
        = optMinList (chunkInstants p (validRows p chunk))
    ∧ (process_chunk p chunk).end_time
        = optMaxList (chunkInstants p (validRows p chunk))
    ∧ ((process_chunk p chunk).start_time = none ↔ validRows p chunk = [])
    ∧ ((process_chunk p chunk).end_time = none ↔ validRows p chunk = [])
    ∧ (merge A B).start_time = mergeOptMin A.start_time B.start_time
    ∧ (merge A B).end_time = mergeOptMax A.end_time B.end_time
    ∧ mergeOptMin none (some x) = some x
    ∧ mergeOptMin (some x) none = some x
    ∧ mergeOptMin (some x) (some y) = some (min x y)
    ∧ mergeOptMax none (some x) = some x
    ∧ mergeOptMax (some x) none = some x
    ∧ mergeOptMax (some x) (some y) = some (max x y)
    ∧ (driveChunks p chunks).start_time
        = optMinList (chunkInstants p (validRows p chunks.flatten))
    ∧ (driveChunks p chunks).end_time
        = optMaxList (chunkInstants p (validRows p chunks.flatten)) := by
  refine ⟨rfl, rfl, ?_, ?_, rfl, rfl, rfl, rfl, rfl, rfl, rfl, rfl, ?_, ?_⟩
  · show optMinList (chunkInstants p (validRows p chunk)) = none ↔ _
    rw [optMinList_eq_none_iff, chunkInstants_validRows_eq_nil_iff]
  · show optMaxList (chunkInstants p (validRows p chunk)) = none ↔ _
    rw [optMaxList_eq_none_iff, chunkInstants_validRows_eq_nil_iff]
  · rw [driveChunks_eq]; rfl
  · rw [driveChunks_eq]; rfl

/-- C8: a chunk with no valid records reduces, without failing, to the
aggregate with all four counters empty and an absent time span, and that
aggregate is a two-sided identity of `merge`. -/
theorem c8_empty_chunk (p : String → Option Nat) (chunk : List RawRecord)
    (A : PartialAgg) (h : validRows p chunk = []) :
    process_chunk_run p chunk = some emptyAgg
    ∧ process_chunk p chunk = emptyAgg
    ∧ merge A (process_chunk p chunk) = A
    ∧ merge (process_chunk p chunk) A = A := by
  have he := process_chunk_eq_empty p chunk h
  refine ⟨?_, he, ?_, ?_⟩
  · unfold process_chunk_run
    rw [chunkCrashes_eq_false_of_no_valid p chunk h, he]
    rfl
  · rw [he, merge_empty_right]
  · rw [he, merge_empty_left]

/-- Witness for C8 at a chunk holding one invalid record. -/
theorem c8_empty_chunk_witness :
    merge aggA (process_chunk sampleParse [recBad]) = aggA :=
  (c8_empty_chunk sampleParse [recBad] aggA (by decide)).2.2.1

/-- C9: a missing log file fails immediately as `fatalFileNotFound`; an
opened log with zero valid rows fails as the distinct `fatalNoValidData`;
the two outcomes are different constructors (structurally distinguishable
by a caller) and both carry exit code 1. -/
theorem c9_failure_modes (p : String → Option Nat) (lines : List String)
    (h : validRows p (lines.map parseLine) = []) :
    runMain p none = RunResult.fatalFileNotFound
    ∧ exitCode (runMain p none) = 1
    ∧ runMain p (some lines) = RunResult.fatalNoValidData
    ∧ exitCode (runMain p (some lines)) = 1
    ∧ RunResult.fatalFileNotFound ≠ RunResult.fatalNoValidData := by
  have hrun : runMain p (some lines) = RunResult.fatalNoValidData := by
    simp [runMain, h]
  exact ⟨rfl, rfl, hrun, by rw [hrun]; rfl, fun hcon => RunResult.noConfusion hcon⟩

/-- Witness for C9 at a header-only log (the spec's empty-log scenario). -/
theorem c9_failure_modes_witness :
    runMain sampleParse (some [hdrLine]) = RunResult.fatalNoValidData
    ∧ exitCode (runMain sampleParse none) = 1 :=
  ⟨(c9_failure_modes sampleParse [hdrLine] (by decide)).2.2.1,
   (c9_failure_modes sampleParse [hdrLine] (by decide)).2.1⟩

/-- C10: in every chunk whose valid records all carry a source id, any
duplicate-free collection of hourly keys for a source `s` sums to at most
`source_event_counts[s]` (hourly counts only cover the marked subset of the
source's valid records); the bound is preserved by `merge`; and hence it
holds of the Accumulated Aggregate of any run whose chunks all satisfy the
hypothesis. -/
theorem c10_hourly_bound (p : String → Option Nat) :
    (∀ chunk : List RawRecord,
        (∀ r ∈ validRows p chunk, r.camera.isSome = true) →
        HourlyLeSource (process_chunk p chunk))
    ∧ (∀ A B : PartialAgg, HourlyLeSource A → HourlyLeSource B →
        HourlyLeSource (merge A B))
    ∧ (∀ chunks : List (List RawRecord),
        (∀ c ∈ chunks, ∀ r ∈ validRows p c, r.camera.isSome = true) →
        HourlyLeSource (driveChunks p chunks)) := by
  refine ⟨fun chunk _ => hourly_le_camera_chunk p chunk,
    hourly_le_camera_merge, fun chunks _ => ?_⟩
  rw [driveChunks_eq]
  exact hourly_le_camera_chunk p chunks.flatten

/-- Witness for C10 at a concrete one-row chunk and one hourly key. -/
theorem c10_hourly_bound_witness :
    (([(36000, "open")] : List (Nat × String)).map fun hg =>
        (process_chunk sampleParse [recOpen]).hourly_event_counts
          (hg.1, "camA", hg.2)).sum
      ≤ (process_chunk sampleParse [recOpen]).camera_event_counts "camA" :=
  (c10_hourly_bound sampleParse).1 [recOpen] (by decide) "camA"
    [(36000, "open")] (by decide)
